import Mathlib

/-
Verification of the DraftKings betting-splits scraper (src/app.py) against its
natural-language specification.

The embedding models Python strings as Lean Strings (lists of characters) and
reimplements the handful of Python string primitives the source uses
(str.strip, str.split, substring containment, str.replace, str.upper,
str.isdigit) as executable Lean functions on character lists.  Python float()
and int() are modelled on the plain decimal / integer literals that actually
occur in this program (optional sign, digits, optional fractional part);
exotic float syntax (exponents, inf, nan) is outside the fragment the scraper
ever produces and is mapped to parse failure, which the source treats as 0.
Percentages are modelled as exact rationals and odds as integers; the source
arithmetic on these values (comparisons, subtraction) is order-isomorphic to
the float arithmetic it performs on the small decimal values involved.

Dictionaries are modelled as structures with exactly the keys the source
writes; the Python dict-copy expression in extract_all_bets, written as a
spread of the stored bet plus context keys, is modelled as construction of a
fresh AnnotatedBet value, and the sort calls, which in Python are stable
sorts, are modelled with a stable insertion sort.
-/

/-! ## Python string primitives -/

/-- Drop trailing whitespace characters, modelling the right half of
Python str.strip. -/
def dropTrailingWs : List Char → List Char
  | [] => []
  | c :: cs =>
    match dropTrailingWs cs with
    | [] => if c.isWhitespace then [] else [c]
    | d :: ds => c :: d :: ds

/-- Strip leading and trailing whitespace from a character list, modelling
Python str.strip with no arguments. -/
def stripChars (l : List Char) : List Char :=
  dropTrailingWs (l.dropWhile Char.isWhitespace)

/-- Python str.strip on strings. -/
def pyStrip (s : String) : String :=
  String.mk (stripChars s.toList)

/-- Splitter worker: split a character list on the nonempty separator
c0 :: sr, scanning left to right for nonoverlapping occurrences, exactly as
Python str.split with a nonempty separator argument.  The fuel argument
makes the recursion structural so the function reduces inside the kernel;
every caller passes at least the length of the list, which is always
enough, since each step consumes at least one character. -/
def splitOnFuel (c0 : Char) (sr : List Char) : Nat → List Char → List (List Char)
  | 0, l => [l]
  | _ + 1, [] => [[]]
  | fuel + 1, c :: cs =>
    if c == c0 && sr.isPrefixOf cs then
      [] :: splitOnFuel c0 sr fuel (cs.drop sr.length)
    else
      match splitOnFuel c0 sr fuel cs with
      | [] => [[c]]
      | p :: ps => (c :: p) :: ps

/-- Split a character list on a separator; the empty-separator case never
occurs in the program and is mapped to the identity split. -/
def splitOnL (sep l : List Char) : List (List Char) :=
  match sep with
  | [] => [l]
  | c0 :: sr => splitOnFuel c0 sr l.length l

/-- Python str.split with an explicit separator string. -/
def pySplit (sep s : String) : List String :=
  (splitOnL sep.toList s.toList).map String.mk

/-- Containment worker for a nonempty pattern c0 :: sr. -/
def containsGo (c0 : Char) (sr : List Char) : List Char → Bool
  | [] => false
  | c :: cs => (c == c0 && sr.isPrefixOf cs) || containsGo c0 sr cs

/-- Python substring containment, the expression sub in s. -/
def pyContains (sub s : String) : Bool :=
  match sub.toList with
  | [] => true
  | c0 :: sr => containsGo c0 sr s.toList

/-- Interleave a separator between parts, the inverse of splitting; used to
model Python str.replace as split-then-rejoin. -/
def joinSep (sep : List Char) : List (List Char) → List Char
  | [] => []
  | [p] => p
  | p :: ps => p ++ sep ++ joinSep sep ps

/-- Python str.replace old new: every nonoverlapping occurrence of old is
replaced by new, scanning left to right. -/
def pyReplace (old new s : String) : String :=
  String.mk (joinSep new.toList (splitOnL old.toList s.toList))

/-- Python str.upper restricted to the ASCII range used by the rosters. -/
def pyUpper (s : String) : String :=
  String.mk (s.toList.map Char.toUpper)

/-- Python str.isdigit: nonempty and all characters are decimal digits. -/
def pyIsDigit (s : String) : Bool :=
  !s.toList.isEmpty && s.toList.all Char.isDigit

/-! ## Kernel-computable rational arithmetic

The standard addition and subtraction on Rat do not reduce inside the
kernel, so the embedding computes with mkRat-based versions and the
theorems ratAdd_eq and ratSub_eq rewrite them back to the standard
operations, which the claim statements use. -/

/-- Addition on rationals through mkRat; equal to standard addition. -/
def ratAdd (a b : Rat) : Rat :=
  mkRat (a.num * b.den + b.num * a.den) (a.den * b.den)

/-- Subtraction on rationals through mkRat; equal to standard
subtraction. -/
def ratSub (a b : Rat) : Rat :=
  mkRat (a.num * b.den - b.num * a.den) (a.den * b.den)

/-! ## Numeric parsing, modelling Python float() and int() casts -/

/-- Decimal digits to a natural number, most significant first. -/
def digitsToNat (cs : List Char) : Nat :=
  cs.foldl (fun n c => n * 10 + (c.toNat - 48)) 0

/-- Parse an unsigned decimal literal (digits, optional dot, digits) to an
exact rational, the fragment of Python float() syntax this program can meet;
anything else fails. -/
def parseUnsignedDecimal (cs : List Char) : Option Rat :=
  let intPart := cs.takeWhile Char.isDigit
  let rest := cs.dropWhile Char.isDigit
  match rest with
  | [] => if intPart.isEmpty then none else some (digitsToNat intPart : Rat)
  | '.' :: frac =>
    if frac.all Char.isDigit && !(intPart.isEmpty && frac.isEmpty) then
      some (mkRat (digitsToNat intPart * 10 ^ frac.length + digitsToNat frac) (10 ^ frac.length))
    else none
  | _ => none

/-- Python float(s) on the decimal fragment: strip whitespace, optional
sign, unsigned decimal literal; failure is an exception in Python, modelled
as none. -/
def parseFloatQ (s : String) : Option Rat :=
  match (pyStrip s).toList with
  | '+' :: rest => parseUnsignedDecimal rest
  | '-' :: rest => (parseUnsignedDecimal rest).map (fun q => -q)
  | cs => parseUnsignedDecimal cs

/-- Python int(s): strip whitespace, optional sign, nonempty digit run. -/
def parseIntZ (s : String) : Option Int :=
  match (pyStrip s).toList with
  | '+' :: rest =>
    if !rest.isEmpty && rest.all Char.isDigit then some (digitsToNat rest : Int) else none
  | '-' :: rest =>
    if !rest.isEmpty && rest.all Char.isDigit then some (-(digitsToNat rest : Int)) else none
  | cs =>
    if !cs.isEmpty && cs.all Char.isDigit then some (digitsToNat cs : Int) else none

/-- parse_percentage from src/app.py: drop every percent sign and convert to
float; on failure return 0.0. -/
def parse_percentage (s : String) : Rat :=
  (parseFloatQ (pyReplace "%" "" s)).getD 0

/-- parse_odds from src/app.py: normalise the mojibake unicode minus to a
regular minus and convert to int; on failure return 0. -/
def parse_odds (s : String) : Int :=
  (parseIntZ (pyReplace "âˆ’" "-" s)).getD 0

/-! ## Data model -/

/-- A stored bet record, carrying exactly the four keys parse_bet writes;
the derived analytics fields are deliberately absent from this type, as they
are from the stored dictionaries in the source. -/
structure Bet where
  team : String
  odds : String
  handle_pct : String
  bets_pct : String
deriving DecidableEq

/-- A stored game record as built by parse_game and the scrape loop; markets
is the insertion-ordered dictionary from market-type label to the bets of
that market. -/
structure Game where
  title : String
  time : String
  away_team : String
  home_team : String
  scraped_date_range : String
  markets : List (String × List Bet)
deriving DecidableEq

/-- An analytics-only flattened bet: the stored bet fields plus game context
and the optional derived scores, which are none until an analytic writes
them onto this copy. -/
structure AnnotatedBet where
  team : String
  odds : String
  handle_pct : String
  bets_pct : String
  game_title : String
  game_time : String
  away_team : String
  home_team : String
  market_type : String
  handle_vs_bets_diff : Option Rat
  square_score : Option Rat
deriving DecidableEq

/-! ## HTML fragment model

The BeautifulSoup queries of the source are modelled by structures holding
the text each query would return: a bet row holds the optional selection
label text, the optional odds text, and the document-ordered texts of all
nested div elements; a market container holds the optional header label and
its bet rows; a game fragment holds the optional title header (h5 text and
span text) and the optional market wrapper with its child containers. -/

structure BetSoup where
  team_elem : Option String
  odds_elem : Option String
  div_texts : List String
deriving DecidableEq

structure MarketSoup where
  header : Option String
  bet_soups : List BetSoup
deriving DecidableEq

structure TitleElem where
  h5_text : String
  span_text : String
deriving DecidableEq

structure GameSoup where
  title_elem : Option TitleElem
  market_wrap : Option (List MarketSoup)
deriving DecidableEq

/-! ## Parser -/

/-- The percentage-token test of parse_bet: the stripped div text contains a
percent sign and, with percent signs and spaces removed, satisfies
str.isdigit. -/
def isPctToken (text : String) : Bool :=
  pyContains "%" text && pyIsDigit (pyReplace " " "" (pyReplace "%" "" text))

/-- parse_bet from src/app.py: require the selection-label element and the
odds element, collect the stripped texts of all nested divs that pass the
percentage-token test, take the first as handle percent and the second as
bets percent, defaulting both to 0 percent when fewer than two are found. -/
def parse_bet (bs : BetSoup) : Option Bet :=
  match bs.team_elem with
  | none => none
  | some t =>
    match bs.odds_elem with
    | none => none
    | some o =>
      match (bs.div_texts.map pyStrip).filter isPctToken with
      | p1 :: p2 :: _ =>
        some { team := pyStrip t, odds := pyStrip o, handle_pct := p1, bets_pct := p2 }
      | _ =>
        some { team := pyStrip t, odds := pyStrip o, handle_pct := "0%", bets_pct := "0%" }

/-- parse_market from src/app.py: require the header, take its stripped
label as the market type, and keep every bet row parse_bet accepts, in
document order. -/
def parse_market (ms : MarketSoup) : Option (String × List Bet) :=
  match ms.header with
  | none => none
  | some h => some (pyStrip h, ms.bet_soups.filterMap parse_bet)

/-- Insert a market under its label into the insertion-ordered market
dictionary: a later duplicate label overwrites the earlier value in place,
which is Python dict assignment semantics. -/
def marketsInsert (m : List (String × List Bet)) (k : String) (v : List Bet) : List (String × List Bet) :=
  if m.any (fun p => p.1 == k) then
    m.map (fun p => if p.1 == k then (k, v) else p)
  else
    m ++ [(k, v)]

/-- The title-splitting logic of parse_game: if the title contains the
three-character delimiter space-at-space, split on it and accept exactly a
two-part split, taking the stripped parts as away and home; otherwise, if it
contains space-vs-space, do the same on that delimiter; otherwise reject. -/
def splitTitle (title : String) : Option (String × String) :=
  if pyContains " @ " title then
    match pySplit " @ " title with
    | [a, h] => some (pyStrip a, pyStrip h)
    | _ => none
  else if pyContains " vs " title then
    match pySplit " vs " title with
    | [a, h] => some (pyStrip a, pyStrip h)
    | _ => none
  else none

/-- parse_game from src/app.py: require the title header, strip its h5 and
span texts into title and time, split the title into away and home teams,
require the market wrapper, and fold the parsed market containers into the
markets dictionary.  The scraped_date_range key is written by the scrape
loop after parsing, so it starts empty here. -/
def parse_game (gs : GameSoup) : Option Game :=
  match gs.title_elem with
  | none => none
  | some te =>
    let title := pyStrip te.h5_text
    let time := pyStrip te.span_text
    match splitTitle title with
    | none => none
    | some (away, home) =>
      match gs.market_wrap with
      | none => none
      | some containers =>
        let markets := containers.foldl
          (fun m c =>
            match parse_market c with
            | some md => marketsInsert m md.1 md.2
            | none => m) []
        some { title := title, time := time, away_team := away, home_team := home,
               scraped_date_range := "", markets := markets }

/-! ## Scrape loop -/

/-- Result of one page fetch: a transport error, raising in the source and
caught by the except clause, or a document yielding a list of game
fragments. -/
inductive FetchOutcome where
  | err : FetchOutcome
  | ok : List GameSoup → FetchOutcome
deriving DecidableEq

/-- Why pagination for one sport and date-range pair stopped.  fuelOut is an
artifact of the fuel-based embedding of the while loop and is proved
unreachable from the entry point. -/
inductive Halt where
  | fetchError : Halt
  | emptyPage : Halt
  | noNewGames : Halt
  | pageCap : Halt
  | fuelOut : Halt
deriving DecidableEq

/-- The dedup identity key of a game. -/
def gameKey (g : Game) : String × String × String :=
  (g.title, g.time, g.scraped_date_range)

/-- One iteration of the per-page fragment loop of scrape_betting_splits:
parse the fragment, stamp the date range onto it, discard it when an
accumulated game already has the same title, time and date range, and
otherwise append it and count it as new. -/
def dedupStep (dr : String) (st : List Game × Nat) (frag : GameSoup) : List Game × Nat :=
  match parse_game frag with
  | none => st
  | some gd0 =>
    let gd := { gd0 with scraped_date_range := dr }
    if st.1.any (fun existing =>
        existing.title == gd.title && existing.time == gd.time &&
        existing.scraped_date_range == gd.scraped_date_range) then
      st
    else
      (st.1 ++ [gd], st.2 + 1)

/-- The per-page fragment loop of scrape_betting_splits: fold dedupStep over
the fragments of a page; returns the grown accumulator and the number of new
games this page added, the length of page_games in the source. -/
def processFragments (dr : String) (frags : List GameSoup) (acc : List Game) : List Game × Nat :=
  frags.foldl (dedupStep dr) (acc, 0)

/-- Result of the pagination loop for one sport and date-range pair. -/
structure LoopResult where
  games : List Game
  pagesFetched : List Nat
  halt : Halt
deriving DecidableEq

/-- The while-True pagination loop of scrape_betting_splits for one sport
and date-range pair, with the fetch of a page abstracted as an oracle from
page number to outcome.  The loop body fetches the page, stops on a fetch
error, stops on a page with no game fragments, stops on a page contributing
no new games, increments the page counter and stops once it passes the
20-page safety cap.  The embedding carries fuel to express the loop as a
total function; the entry point supplies enough fuel that the cap check
always fires first, which theorem scrapeLoop below makes precise. -/
def scrapeLoop (fetch : Nat → FetchOutcome) (dr : String) : Nat → Nat → List Game → LoopResult
  | 0, _, acc => ⟨acc, [], Halt.fuelOut⟩
  | fuel + 1, page, acc =>
    match fetch page with
    | FetchOutcome.err => ⟨acc, [page], Halt.fetchError⟩
    | FetchOutcome.ok frags =>
      if frags.isEmpty then ⟨acc, [page], Halt.emptyPage⟩
      else
        let st := processFragments dr frags acc
        if st.2 = 0 then ⟨st.1, [page], Halt.noNewGames⟩
        else if page + 1 > 20 then ⟨st.1, [page], Halt.pageCap⟩
        else
          let r := scrapeLoop fetch dr fuel (page + 1) st.1
          ⟨r.games, page :: r.pagesFetched, r.halt⟩

/-- Pagination for one sport and date-range pair starts at page 1; 20 units
of fuel cover the whole range the 20-page cap permits. -/
def scrapePair (fetch : Nat → FetchOutcome) (dr : String) (acc : List Game) : LoopResult :=
  scrapeLoop fetch dr 20 1 acc

/-- The sport configuration table of scrape_betting_splits: name, numeric
sport id, and the date-range tokens to scrape. -/
def sport_configs : List (String × Nat × List String) :=
  [("all_sports", 0, ["today", "tomorrow"]),
   ("mlb", 84240, ["today", "tomorrow"]),
   ("wnba", 94682, ["today", "tomorrow"]),
   ("nba", 42648, ["today", "tomorrow"]),
   ("nhl", 42133, ["today", "tomorrow"]),
   ("mls", 89345, ["today"]),
   ("ufc", 9034, ["today", "tomorrow"]),
   ("nfl", 88808, ["today", "tomorrow"]),
   ("ncaaf", 87637, ["today", "tomorrow"]),
   ("ncaa_basketball", 92483, ["today", "tomorrow"]),
   ("ncaa_womens_basketball", 36647, ["today", "tomorrow"]),
   ("ncaa_ice_hockey", 84813, ["today", "tomorrow"]),
   ("ncaa_baseball", 41151, ["today", "tomorrow"]),
   ("premier_league", 40253, ["today"]),
   ("champions_league", 40685, ["today"]),
   ("europa_league", 41410, ["today"])]

/-- scrape_betting_splits from src/app.py, with the network abstracted as an
oracle from sport id, date range and page number to a fetch outcome: skip
the all_sports entry, then for every remaining sport and each of its date
ranges run the pagination loop, threading the global accumulator of games
through every pair. -/
def scrape_betting_splits (fetch : Nat → String → Nat → FetchOutcome) : List Game :=
  (sport_configs.filter (fun c => c.1 != "all_sports")).foldl
    (fun acc cfg =>
      cfg.2.2.foldl
        (fun acc2 dr => (scrapePair (fetch cfg.2.1 dr) dr acc2).games)
        acc)
    []

/-! ## Cache manager

Timestamps are modelled as integer seconds; datetime subtraction and
timedelta comparison in the source are exact, so the boundary behaviour is
preserved. -/

def CACHE_DURATION_MINUTES : Int := 30

/-- is_cache_expired from src/app.py: a missing timestamp is expired, and
otherwise the cache is expired exactly when its age strictly exceeds the
30-minute duration. -/
def is_cache_expired (cache_timestamp : Option Int) (now : Int) : Bool :=
  match cache_timestamp with
  | none => true
  | some t => decide (now - t > CACHE_DURATION_MINUTES * 60)

/-- The two module-level cache globals of the source. -/
structure CacheState where
  cached_games_data : List Game
  cache_timestamp : Option Int
deriving DecidableEq

/-- get_cached_or_fresh_data from src/app.py, with the scrape pipeline
abstracted as the list of games a fresh scrape would return: serve the
cached list when it is truthy, that is nonempty, and not expired; otherwise
scrape, install the result with the current timestamp, and return it.  The
returned pair is the served games plus the cache state after the call. -/
def get_cached_or_fresh_data (st : CacheState) (now : Int) (fresh_data : List Game) :
    List Game × CacheState :=
  if st.cached_games_data ≠ [] ∧ is_cache_expired st.cache_timestamp now = false then
    (st.cached_games_data, st)
  else
    (fresh_data, ⟨fresh_data, some now⟩)

/-! ## Sport filtering and rosters -/

/-- The MLB team list of filter_mlb_games, verbatim from src/app.py. -/
def mlb_teams : List String :=
  ["Angels", "Astros", "Athletics", "Blue Jays", "Braves", "Brewers",
   "Cardinals", "Cubs", "Diamondbacks", "Dodgers", "Giants", "Guardians",
   "Indians", "Mariners", "Marlins", "Mets", "Nationals", "Orioles",
   "Padres", "Phillies", "Pirates", "Rangers", "Rays", "Red Sox",
   "Reds", "Rockies", "Royals", "Tigers", "Twins", "White Sox", "Yankees",
   "LAA", "HOU", "OAK", "TOR", "ATL", "MIL", "STL", "CHC", "ARI", "LAD",
   "SF", "CLE", "SEA", "MIA", "NYM", "WSN", "WAS", "BAL", "SD", "PHI",
   "PIT", "TEX", "TB", "BOS", "CIN", "COL", "KC", "DET", "MIN", "CWS",
   "CHW", "NYY", "NY"]

/-- The mlb entry of the team_lists table of filter_games_by_sport,
verbatim from src/app.py. -/
def team_lists_mlb : List String :=
  ["Angels", "Astros", "Athletics", "Blue Jays", "Braves", "Brewers",
   "Cardinals", "Cubs", "Diamondbacks", "Dodgers", "Giants", "Guardians",
   "Mariners", "Marlins", "Mets", "Nationals", "Orioles", "Padres",
   "Phillies", "Pirates", "Rangers", "Rays", "Red Sox", "Reds", "Rockies",
   "Royals", "Tigers", "Twins", "White Sox", "Yankees",
   "LAA", "HOU", "OAK", "TOR", "ATL", "MIL", "STL", "CHC", "ARI", "LAD",
   "SF", "CLE", "MIA", "NYM", "WSN", "WAS", "BAL", "SD", "PHI",
   "PIT", "TEX", "TB", "BOS", "CIN", "COL", "KC", "DET", "MIN", "CWS",
   "CHW", "NYY"]

/-- The nba entry of the team_lists table, verbatim from src/app.py. -/
def team_lists_nba : List String :=
  ["Hawks", "Celtics", "Nets", "Hornets", "Bulls", "Cavaliers", "Mavericks",
   "Nuggets", "Pistons", "Warriors", "Rockets", "Pacers", "Clippers", "Lakers",
   "Grizzlies", "Heat", "Bucks", "Timberwolves", "Pelicans", "Knicks",
   "Thunder", "Magic", "76ers", "Suns", "Trail Blazers", "Kings", "Spurs",
   "Raptors", "Jazz", "Wizards",
   "ATL", "BOS", "BKN", "CHA", "CHI", "CLE", "DAL", "DEN", "DET", "GSW",
   "HOU", "IND", "LAC", "LAL", "MEM", "MIA", "MIL", "MIN", "NOP", "NYK",
   "OKC", "ORL", "PHI", "PHX", "POR", "SAC", "SAS", "TOR", "UTA", "WAS"]

/-- The nfl entry of the team_lists table, verbatim from src/app.py. -/
def team_lists_nfl : List String :=
  ["Cardinals", "Falcons", "Ravens", "Bills", "Panthers", "Bears", "Bengals",
   "Browns", "Cowboys", "Broncos", "Lions", "Packers", "Texans", "Colts",
   "Jaguars", "Chiefs", "Raiders", "Chargers", "Rams", "Dolphins", "Vikings",
   "Patriots", "Saints", "Giants", "Jets", "Eagles", "Steelers", "49ers",
   "Seahawks", "Buccaneers", "Titans", "Commanders",
   "ARI", "ATL", "BAL", "BUF", "CAR", "CHI", "CIN", "CLE", "DAL", "DEN",
   "DET", "GB", "HOU", "IND", "JAX", "KC", "LV", "LAC", "LAR", "MIA",
   "MIN", "NE", "NO", "NYG", "NYJ", "PHI", "PIT", "SF", "TEN", "WAS"]

/-- The nhl entry of the team_lists table, verbatim from src/app.py. -/
def team_lists_nhl : List String :=
  ["Ducks", "Coyotes", "Bruins", "Sabres", "Flames", "Hurricanes",
   "Blackhawks", "Avalanche", "Blue Jackets", "Stars", "Red Wings",
   "Oilers", "Panthers", "Kings", "Wild", "Canadiens", "Predators",
   "Devils", "Islanders", "Rangers", "Senators", "Flyers", "Penguins",
   "Sharks", "Kraken", "Blues", "Lightning", "Maple Leafs", "Canucks",
   "Golden Knights", "Capitals", "Jets",
   "ANA", "ARI", "BOS", "BUF", "CGY", "CAR", "CHI", "COL", "CBJ", "DAL",
   "DET", "EDM", "FLA", "LAK", "MIN", "MTL", "NSH", "NJD", "NYI", "NYR",
   "OTT", "PHI", "PIT", "SJS", "STL", "TBL", "TOR", "VAN", "VGK",
   "WSH", "WPG"]

/-- The team_lists dictionary lookup of filter_games_by_sport: the four
known sport keys map to their rosters, any other key is absent. -/
def team_lists (sport : String) : Option (List String) :=
  if sport = "mlb" then some team_lists_mlb
  else if sport = "nba" then some team_lists_nba
  else if sport = "nfl" then some team_lists_nfl
  else if sport = "nhl" then some team_lists_nhl
  else none

/-- The roster-matching test shared by both filters: some token, uppercased,
occurs as a substring of the uppercased game title. -/
def titleMatchesRoster (roster : List String) (g : Game) : Bool :=
  roster.any (fun team => pyContains (pyUpper team) (pyUpper g.title))

/-- filter_mlb_games from src/app.py: keep the games whose title matches the
dedicated MLB list. -/
def filter_mlb_games (games : List Game) : List Game :=
  games.filter (titleMatchesRoster mlb_teams)

/-- filter_games_by_sport from src/app.py: an unknown sport key yields the
empty list, a known one keeps the games whose title matches its roster. -/
def filter_games_by_sport (games : List Game) (sport : String) : List Game :=
  match team_lists sport with
  | none => []
  | some sport_teams => games.filter (titleMatchesRoster sport_teams)

/-! ## Analytics engine -/

/-- The per-bet copy built inside extract_all_bets: the spread of the stored
bet dict plus the game-context keys, a fresh dictionary leaving the stored
bet untouched; no derived score is present yet. -/
def mkAnnotated (g : Game) (market_type : String) (b : Bet) : AnnotatedBet :=
  { team := b.team, odds := b.odds, handle_pct := b.handle_pct, bets_pct := b.bets_pct,
    game_title := g.title, game_time := g.time, away_team := g.away_team,
    home_team := g.home_team, market_type := market_type,
    handle_vs_bets_diff := none, square_score := none }

/-- extract_all_bets from src/app.py: flatten every game, market and bet, in
stored order, into context-annotated copies. -/
def extract_all_bets (games : List Game) : List AnnotatedBet :=
  games.flatMap (fun g => g.markets.flatMap (fun p => p.2.map (mkAnnotated g p.1)))

/-- Insert an element into a descending-sorted list, placing it before the
first element with a key at most its own; used to model Python sorted with
reverse set, which is a stable descending sort. -/
def insertDescBy {α : Type} (k : α → Rat) (x : α) : List α → List α
  | [] => [x]
  | y :: ys => if k y ≤ k x then x :: y :: ys else y :: insertDescBy k x ys

/-- Stable descending insertion sort by a rational key, modelling Python
sorted with a key function and reverse set: the result is ordered by
descending key and ties keep their input order. -/
def sortDescBy {α : Type} (k : α → Rat) : List α → List α
  | [] => []
  | x :: xs => insertDescBy k x (sortDescBy k xs)

/-- The handle percentage of an annotated bet as the sort key of
big_bettor_alerts reads it. -/
def handleKey (b : AnnotatedBet) : Rat :=
  parse_percentage b.handle_pct

/-- The stored handle-versus-bets difference as the sort keys of
sharpest_longshot_bets and big_bettor_alerts_by_sport read it; in the
source the key is always present at the point of sorting. -/
def diffKey (b : AnnotatedBet) : Rat :=
  b.handle_vs_bets_diff.getD 0

/-- The derived-score write of sharpest_longshot_bets and
big_bettor_alerts_by_sport: store the parsed handle-minus-bets difference
onto the annotated copy. -/
def setHandleVsBetsDiff (b : AnnotatedBet) : AnnotatedBet :=
  { b with
    handle_vs_bets_diff := some (ratSub (parse_percentage b.handle_pct) (parse_percentage b.bets_pct)) }

/-- big_bettor_alerts from src/app.py: drop the Total market bets and sort
the rest descending by parsed handle percentage, keeping the first limit
entries; the route layer always passes the default limit 7. -/
def big_bettor_alerts (games : List Game) (limit : Nat) : List AnnotatedBet :=
  let all_bets := extract_all_bets games
  let non_total_bets := all_bets.filter (fun b => b.market_type != "Total")
  let sorted_bets := sortDescBy handleKey non_total_bets
  sorted_bets.take limit

/-- sharpest_longshot_bets from src/app.py: keep the bets with parsed odds
at least 200 whose parsed handle percentage is at least the parsed bets
percentage plus 30, store the difference on the annotated copy, sort
descending by the stored difference and keep the first limit entries. -/
def sharpest_longshot_bets (games : List Game) (limit : Nat) : List AnnotatedBet :=
  let all_bets := extract_all_bets games
  let sharp_longshots :=
    (all_bets.filter (fun b =>
        decide (parse_odds b.odds ≥ 200) &&
        decide (parse_percentage b.handle_pct ≥ ratAdd (parse_percentage b.bets_pct) 30))).map
      setHandleVsBetsDiff
  let sorted_longshots := sortDescBy diffKey sharp_longshots
  sorted_longshots.take limit

/-- big_bettor_alerts_by_sport from src/app.py: restrict the games with
filter_games_by_sport, short-circuit to the empty list when nothing
remains, drop the Total market bets, store the parsed handle-minus-bets
difference on every remaining annotated copy, sort descending by it and
keep the first limit entries. -/
def big_bettor_alerts_by_sport (games : List Game) (sport : String) (limit : Nat) :
    List AnnotatedBet :=
  let sport_games := filter_games_by_sport games sport
  if sport_games.isEmpty then []
  else
    let all_bets := extract_all_bets sport_games
    let non_total_bets :=
      (all_bets.filter (fun b => b.market_type != "Total")).map
        setHandleVsBetsDiff
    let sorted_bets := sortDescBy diffKey non_total_bets
    sorted_bets.take limit

/-! ## Concrete inputs used by the witness and counterexample theorems -/

/-- A bet row fragment whose nested divs carry the percentage pair 65 and
20 plus an unrelated text node. -/
def bs1 : BetSoup :=
  { team_elem := some "Yankees", odds_elem := some "+250", div_texts := ["x", "65%", "20%"] }

/-- A bet row fragment whose percentage-looking texts are above 100. -/
def bs150 : BetSoup :=
  { team_elem := some "X", odds_elem := some "+100", div_texts := ["150%", "160%"] }

def ts1 : TitleElem := { h5_text := " Yankees @ Red Sox ", span_text := "7:05PM" }

def ms1 : MarketSoup := { header := some "Moneyline", bet_soups := [bs1] }

/-- A complete parseable game fragment. -/
def gs1 : GameSoup := { title_elem := some ts1, market_wrap := some [ms1] }

def bet1 : Bet :=
  { team := "Yankees", odds := "+250", handle_pct := "65%", bets_pct := "20%" }

/-- A stored MLB game holding one longshot moneyline bet. -/
def game1 : Game :=
  { title := "Yankees @ Red Sox", time := "7:05PM", away_team := "Yankees",
    home_team := "Red Sox", scraped_date_range := "today",
    markets := [("Moneyline", [bet1])] }

/-- The game parse_game produces from gs1; the date range is stamped later
by the scrape loop, so it is empty here. -/
def game1parsed : Game :=
  { title := "Yankees @ Red Sox", time := "7:05PM", away_team := "Yankees",
    home_team := "Red Sox", scraped_date_range := "",
    markets := [("Moneyline", [bet1])] }

/-- The annotated copy of bet1 produced by flattening game1. -/
def ab1 : AnnotatedBet :=
  { team := "Yankees", odds := "+250", handle_pct := "65%", bets_pct := "20%",
    game_title := "Yankees @ Red Sox", game_time := "7:05PM", away_team := "Yankees",
    home_team := "Red Sox", market_type := "Moneyline",
    handle_vs_bets_diff := none, square_score := none }

/-- The tokens of the dedicated MLB list absent from the generic MLB
roster. -/
def mlbExtraTokens : List String :=
  mlb_teams.filter (fun t => !(team_lists_mlb.contains t))

/-! ## Equations for the kernel-computable rational arithmetic -/

theorem ratAdd_eq (a b : Rat) : ratAdd a b = a + b := by
  rw [ratAdd, Rat.add_def, Rat.normalize_eq_mkRat]

theorem ratSub_eq (a b : Rat) : ratSub a b = a - b := by
  rw [ratSub, Rat.sub_def, Rat.normalize_eq_mkRat]

/-! ## Lemmas about the string primitives -/

theorem dropWhile_head_not {p : Char → Bool} :
    ∀ {l : List Char} {c : Char} {rest : List Char},
      List.dropWhile p l = c :: rest → p c = false := by
  intro l
  induction l with
  | nil => intro c rest h; simp [List.dropWhile] at h
  | cons a as ih =>
    intro c rest h
    by_cases hp : p a
    · rw [List.dropWhile_cons_of_pos hp] at h
      exact ih h
    · rw [List.dropWhile_cons_of_neg hp] at h
      cases h
      simpa using hp

theorem dropTrailingWs_sublist : ∀ l : List Char, (dropTrailingWs l).Sublist l := by
  intro l
  induction l with
  | nil => simp [dropTrailingWs]
  | cons c cs ih =>
    rw [dropTrailingWs]
    cases h : dropTrailingWs cs with
    | nil =>
      by_cases hw : c.isWhitespace <;> simp [hw]
    | cons d ds =>
      rw [h] at ih
      exact List.Sublist.cons₂ c ih

theorem dropTrailingWs_eq_nil_iff :
    ∀ l : List Char, dropTrailingWs l = [] ↔ l.all Char.isWhitespace = true := by
  intro l
  induction l with
  | nil => simp [dropTrailingWs]
  | cons c cs ih =>
    rw [dropTrailingWs]
    cases h : dropTrailingWs cs with
    | nil =>
      rw [h] at ih
      by_cases hw : c.isWhitespace <;> simp [hw, ← ih]
    | cons d ds =>
      rw [h] at ih
      constructor
      · intro hcontr; cases hcontr
      · intro hall
        simp only [List.all_cons, Bool.and_eq_true] at hall
        have := ih.mpr hall.2
        cases this

theorem dropTrailingWs_head :
    ∀ {l : List Char} {c : Char} {rest : List Char},
      dropTrailingWs l = c :: rest → ∃ t, l = c :: t := by
  intro l c rest h
  cases l with
  | nil => simp [dropTrailingWs] at h
  | cons a as =>
    rw [dropTrailingWs] at h
    cases h2 : dropTrailingWs as with
    | nil =>
      rw [h2] at h
      by_cases hw : a.isWhitespace <;> simp [hw] at h
      exact ⟨as, by rw [h.1]⟩
    | cons d ds =>
      rw [h2] at h
      cases h
      exact ⟨as, rfl⟩

theorem dropTrailingWs_getLast_not :
    ∀ {l : List Char} {c : Char},
      (dropTrailingWs l).getLast? = some c → c.isWhitespace = false := by
  intro l
  induction l with
  | nil => intro c h; simp [dropTrailingWs] at h
  | cons a as ih =>
    intro c h
    rw [dropTrailingWs] at h
    cases h2 : dropTrailingWs as with
    | nil =>
      rw [h2] at h
      by_cases hw : a.isWhitespace
      · simp [hw] at h
      · simp [hw] at h
        rw [← h]
        simpa using hw
    | cons d ds =>
      rw [h2] at h
      rw [List.getLast?_cons_cons] at h
      apply ih
      rw [h2]
      exact h

theorem stripChars_sublist (l : List Char) : (stripChars l).Sublist l :=
  (dropTrailingWs_sublist (l.dropWhile Char.isWhitespace)).trans
    (List.dropWhile_sublist Char.isWhitespace)

theorem stripChars_head_not {l : List Char} {c : Char} {rest : List Char}
    (h : stripChars l = c :: rest) : c.isWhitespace = false := by
  obtain ⟨t, ht⟩ := dropTrailingWs_head h
  exact dropWhile_head_not ht

theorem stripChars_getLast_not {l : List Char} {c : Char}
    (h : (stripChars l).getLast? = some c) : c.isWhitespace = false :=
  dropTrailingWs_getLast_not h

theorem all_dropWhile_self {p : Char → Bool} :
    ∀ {l : List Char}, (List.dropWhile p l).all p = true → l.all p = true := by
  intro l
  induction l with
  | nil => simp
  | cons a as ih =>
    intro h
    by_cases hp : p a
    · rw [List.dropWhile_cons_of_pos hp] at h
      simp [hp, ih h]
    · rw [List.dropWhile_cons_of_neg hp] at h
      simp only [List.all_cons, Bool.and_eq_true] at h
      exact absurd h.1 hp

theorem stripChars_eq_nil_iff (l : List Char) :
    stripChars l = [] ↔ l.all Char.isWhitespace = true := by
  rw [stripChars, dropTrailingWs_eq_nil_iff]
  constructor
  · exact all_dropWhile_self
  · intro h
    rw [List.all_eq_true] at h ⊢
    intro x hx
    exact h x ((List.dropWhile_sublist Char.isWhitespace).mem hx)

theorem String_mk_ne_of_ne {l m : List Char} (h : l ≠ m) : String.mk l ≠ String.mk m := by
  intro hc
  exact h (congrArg String.data hc)

theorem pyStrip_ne_empty_of_not_all_ws {s : String}
    (h : s.toList.all Char.isWhitespace = false) : pyStrip s ≠ "" := by
  rw [pyStrip]
  apply String_mk_ne_of_ne
  intro hc
  rw [stripChars_eq_nil_iff s.toList] at hc
  rw [h] at hc
  cases hc

theorem joinSep_nil (sep : List Char) : joinSep sep [] = [] := rfl

theorem joinSep_singleton (sep p : List Char) : joinSep sep [p] = p := rfl

theorem joinSep_cons_cons (sep p q : List Char) (qs : List (List Char)) :
    joinSep sep (p :: q :: qs) = p ++ sep ++ joinSep sep (q :: qs) := rfl

theorem isPrefixOf_eq_append :
    ∀ (p l : List Char), p.isPrefixOf l = true → l = p ++ l.drop p.length := by
  intro p
  induction p with
  | nil => intro l _; simp
  | cons a as ih =>
    intro l h
    cases l with
    | nil => simp [List.isPrefixOf] at h
    | cons b bs =>
      simp only [List.isPrefixOf, Bool.and_eq_true, beq_iff_eq] at h
      obtain ⟨rfl, h2⟩ := h
      have := ih bs h2
      simp only [List.length_cons, List.drop_succ_cons, List.cons_append]
      exact congrArg (a :: ·) this

theorem splitOnFuel_ne_nil (c0 : Char) (sr : List Char) :
    ∀ (fuel : Nat) (l : List Char), splitOnFuel c0 sr fuel l ≠ [] := by
  intro fuel
  induction fuel with
  | zero => intro l; simp [splitOnFuel]
  | succ n ih =>
    intro l
    cases l with
    | nil => simp [splitOnFuel]
    | cons c cs =>
      rw [splitOnFuel]
      by_cases hb : (c == c0 && sr.isPrefixOf cs) = true
      · simp [hb]
      · rw [Bool.not_eq_true] at hb
        rw [hb]
        simp only [Bool.false_eq_true, if_false]
        cases h2 : splitOnFuel c0 sr n cs with
        | nil => simp
        | cons p ps => simp

theorem joinSep_splitOnFuel (c0 : Char) (sr : List Char) :
    ∀ (fuel : Nat) (l : List Char), l.length ≤ fuel →
      joinSep (c0 :: sr) (splitOnFuel c0 sr fuel l) = l := by
  intro fuel
  induction fuel with
  | zero =>
    intro l hl
    have : l = [] := List.eq_nil_of_length_eq_zero (Nat.le_zero.mp hl)
    subst this
    simp [splitOnFuel, joinSep]
  | succ n ih =>
    intro l hl
    cases l with
    | nil => simp [splitOnFuel, joinSep]
    | cons c cs =>
      rw [splitOnFuel]
      by_cases hb : (c == c0 && sr.isPrefixOf cs) = true
      · rw [if_pos hb]
        simp only [Bool.and_eq_true, beq_iff_eq] at hb
        obtain ⟨hceq, hpre⟩ := hb
        have hdrop : (cs.drop sr.length).length ≤ n := by
          have h1 : cs.length ≤ n := by simpa using hl
          have h2 : (cs.drop sr.length).length ≤ cs.length := by
            simp [List.length_drop]
          omega
        have hjoin := ih (cs.drop sr.length) hdrop
        cases hsp : splitOnFuel c0 sr n (cs.drop sr.length) with
        | nil => exact absurd hsp (splitOnFuel_ne_nil c0 sr n (cs.drop sr.length))
        | cons p ps =>
          rw [hsp] at hjoin
          rw [joinSep_cons_cons]
          simp only [List.nil_append, List.cons_append]
          rw [hjoin, hceq]
          exact congrArg (c0 :: ·) (isPrefixOf_eq_append sr cs hpre).symm
      · rw [Bool.not_eq_true] at hb
        rw [hb]
        simp only [Bool.false_eq_true, if_false]
        have hcs : cs.length ≤ n := by simpa using hl
        have hjoin := ih cs hcs
        cases h2 : splitOnFuel c0 sr n cs with
        | nil => exact absurd h2 (splitOnFuel_ne_nil c0 sr n cs)
        | cons p ps =>
          rw [h2] at hjoin
          cases ps with
          | nil =>
            rw [joinSep_singleton] at hjoin ⊢
            exact congrArg (c :: ·) hjoin
          | cons q qs =>
            rw [joinSep_cons_cons] at hjoin ⊢
            simp only [List.cons_append]
            rw [← hjoin]

theorem mem_joinSep {sep : List Char} {c : Char} :
    ∀ {ps : List (List Char)}, c ∈ joinSep sep ps → (∃ p ∈ ps, c ∈ p) ∨ c ∈ sep := by
  intro ps
  induction ps with
  | nil => intro h; simp [joinSep] at h
  | cons p ps ih =>
    intro h
    cases ps with
    | nil =>
      rw [joinSep_singleton] at h
      exact Or.inl ⟨p, by simp, h⟩
    | cons q qs =>
      rw [joinSep_cons_cons] at h
      simp only [List.mem_append] at h
      rcases h with (h | h) | h
      · exact Or.inl ⟨p, by simp, h⟩
      · exact Or.inr h
      · rcases ih h with ⟨r, hr, hcr⟩ | h2
        · exact Or.inl ⟨r, List.mem_cons_of_mem p hr, hcr⟩
        · exact Or.inr h2

theorem mem_joinSep_of_part {sep : List Char} {c : Char} :
    ∀ {ps : List (List Char)} {p : List Char}, p ∈ ps → c ∈ p → c ∈ joinSep sep ps := by
  intro ps
  induction ps with
  | nil => intro p hp; simp at hp
  | cons r rs ih =>
    intro p hp hc
    cases rs with
    | nil =>
      simp only [List.mem_singleton] at hp
      subst hp
      simpa [joinSep_singleton] using hc
    | cons q qs =>
      rw [joinSep_cons_cons]
      simp only [List.mem_append]
      rcases List.mem_cons.mp hp with rfl | hp2
      · exact Or.inl (Or.inl hc)
      · exact Or.inr (ih hp2 hc)

theorem splitOnL_two {sep l a b : List Char} (hsep : sep ≠ [])
    (h : splitOnL sep l = [a, b]) : l = a ++ sep ++ b := by
  cases sep with
  | nil => exact absurd rfl hsep
  | cons c0 sr =>
    rw [splitOnL] at h
    have hjoin := joinSep_splitOnFuel c0 sr l.length l (Nat.le_refl _)
    rw [h] at hjoin
    rw [joinSep_cons_cons, joinSep_singleton] at hjoin
    exact hjoin.symm

theorem pySplit_two {sep s a b : String} (hsep : sep.toList ≠ [])
    (h : pySplit sep s = [a, b]) : s.toList = a.toList ++ sep.toList ++ b.toList := by
  rw [pySplit] at h
  cases hsp : splitOnL sep.toList s.toList with
  | nil => rw [hsp] at h; cases h
  | cons p ps =>
    cases ps with
    | nil => rw [hsp] at h; cases h
    | cons q qs =>
      cases qs with
      | nil =>
        rw [hsp] at h
        rw [List.map_cons, List.map_cons, List.map_nil] at h
        injection h with ha h2
        injection h2 with hb h3
        have hpa : p = a.toList := by rw [← ha]; rfl
        have hqb : q = b.toList := by rw [← hb]; rfl
        rw [hpa, hqb] at hsp
        exact splitOnL_two hsep hsp
      | cons r rs => rw [hsp] at h; cases h

theorem strip_part_left {orig la lb sepl : List Char} {s0 : Char} {srest : List Char}
    (hsep : sepl = s0 :: srest) (hws : s0.isWhitespace = true)
    (h : stripChars orig = la ++ sepl ++ lb) : stripChars la ≠ [] := by
  intro hnil
  have hall : la.all Char.isWhitespace = true := (stripChars_eq_nil_iff la).mp hnil
  cases hla : la with
  | nil =>
    rw [hla, hsep] at h
    simp only [List.nil_append, List.cons_append] at h
    have := stripChars_head_not h
    rw [hws] at this
    cases this
  | cons c cs =>
    rw [hla, hsep] at h
    simp only [List.cons_append] at h
    have hcws : c.isWhitespace = true := by
      rw [hla] at hall
      simp only [List.all_cons, Bool.and_eq_true] at hall
      exact hall.1
    have := stripChars_head_not h
    rw [hcws] at this
    cases this

theorem strip_part_right {orig la lb sepl : List Char} {sl : Char}
    (hsep : sepl.getLast? = some sl) (hws : sl.isWhitespace = true)
    (h : stripChars orig = la ++ sepl ++ lb) : stripChars lb ≠ [] := by
  intro hnil
  have hall : lb.all Char.isWhitespace = true := (stripChars_eq_nil_iff lb).mp hnil
  cases hlb : lb with
  | nil =>
    rw [hlb, List.append_nil] at h
    have hlast : (stripChars orig).getLast? = some sl := by
      rw [h, List.getLast?_append]
      rw [hsep]
      rfl
    have := stripChars_getLast_not hlast
    rw [hws] at this
    cases this
  | cons c cs =>
    rw [hlb] at h hall
    cases hx : (c :: cs).getLast? with
    | none => simp at hx
    | some x =>
      have hxmem : x ∈ c :: cs := List.mem_of_mem_getLast? hx
      have hxws : x.isWhitespace = true := by
        rw [List.all_eq_true] at hall
        exact hall x hxmem
      have hlast : (stripChars orig).getLast? = some x := by
        rw [h, List.append_assoc, List.getLast?_append, List.getLast?_append, hx]
        rfl
      have := stripChars_getLast_not hlast
      rw [hxws] at this
      cases this

theorem parseUnsignedDecimal_nonneg {cs : List Char} {q : Rat}
    (h : parseUnsignedDecimal cs = some q) : 0 ≤ q := by
  simp only [parseUnsignedDecimal] at h
  split at h
  · split at h
    · cases h
    · injection h with hq
      rw [← hq]
      exact_mod_cast Nat.cast_nonneg _
  · split at h
    · injection h with hq
      rw [← hq, Rat.mkRat_eq_div]
      apply div_nonneg
      · exact_mod_cast Int.ofNat_nonneg _
      · exact_mod_cast Int.ofNat_nonneg _
    · cases h
  · cases h

theorem mem_of_mem_pyStrip {s : String} {c : Char} (h : c ∈ (pyStrip s).toList) :
    c ∈ s.toList := by
  rw [pyStrip] at h
  exact (stripChars_sublist s.toList).mem h

theorem mem_of_mem_pyReplace_empty {old s : String} {c : Char} (hold : old.toList ≠ [])
    (h : c ∈ (pyReplace old "" s).toList) : c ∈ s.toList := by
  rw [pyReplace] at h
  cases ho : old.toList with
  | nil => exact absurd ho hold
  | cons c0 sr =>
    rw [ho] at h
    rw [splitOnL] at h
    rcases mem_joinSep h with ⟨p, hp, hcp⟩ | hsep
    · have hid := joinSep_splitOnFuel c0 sr s.toList.length s.toList (Nat.le_refl _)
      rw [← hid]
      exact mem_joinSep_of_part hp hcp
    · simp at hsep

theorem mem_pyReplace_empty_of_ne {old s : String} {oc c : Char} (hold : old.toList = [oc])
    (hc : c ∈ s.toList) (hne : c ≠ oc) : c ∈ (pyReplace old "" s).toList := by
  rw [pyReplace, hold, splitOnL]
  have hid := joinSep_splitOnFuel oc [] s.toList.length s.toList (Nat.le_refl _)
  rw [← hid] at hc
  rcases mem_joinSep hc with ⟨p, hp, hcp⟩ | hsep
  · exact mem_joinSep_of_part hp hcp
  · simp only [List.mem_singleton] at hsep
    exact absurd hsep hne

theorem parseFloatQ_nonneg {s : String} (hminus : ('-') ∉ (pyStrip s).toList) :
    0 ≤ (parseFloatQ s).getD 0 := by
  rw [parseFloatQ]
  split
  · rename_i rest heq
    cases hq : parseUnsignedDecimal rest with
    | none => simp
    | some q => simpa using parseUnsignedDecimal_nonneg hq
  · rename_i rest heq
    exact absurd (by rw [heq]; exact List.mem_cons_self _ _) hminus
  · rename_i cs h1 h2
    show 0 ≤ (parseUnsignedDecimal (pyStrip s).toList).getD 0
    cases hq : parseUnsignedDecimal (pyStrip s).toList with
    | none => simp
    | some q => simpa using parseUnsignedDecimal_nonneg hq

theorem isPctToken_nonneg {s : String} (h : isPctToken s = true) :
    0 ≤ parse_percentage s := by
  rw [isPctToken, Bool.and_eq_true] at h
  obtain ⟨-, hdig⟩ := h
  rw [parse_percentage]
  apply parseFloatQ_nonneg
  intro hmem
  have h1 : ('-') ∈ (pyReplace "%" "" s).toList := mem_of_mem_pyStrip hmem
  have h2 : ('-') ∈ (pyReplace " " "" (pyReplace "%" "" s)).toList := by
    apply mem_pyReplace_empty_of_ne (show (" " : String).toList = [' '] from rfl) h1
    decide
  rw [pyIsDigit, Bool.and_eq_true, List.all_eq_true] at hdig
  have := hdig.2 _ h2
  simp [Char.isDigit] at this

/-! ## Lemmas about the stable insertion sort -/

theorem mem_insertDescBy {α : Type} (k : α → Rat) (x : α) :
    ∀ {l : List α} {a : α}, a ∈ insertDescBy k x l ↔ a = x ∨ a ∈ l := by
  intro l
  induction l with
  | nil => intro a; simp [insertDescBy]
  | cons y ys ih =>
    intro a
    rw [insertDescBy]
    by_cases hc : k y ≤ k x
    · rw [if_pos hc]
      simp [List.mem_cons]
    · rw [if_neg hc]
      simp only [List.mem_cons, ih]
      tauto

theorem length_insertDescBy {α : Type} (k : α → Rat) (x : α) :
    ∀ (l : List α), (insertDescBy k x l).length = l.length + 1 := by
  intro l
  induction l with
  | nil => simp [insertDescBy]
  | cons y ys ih =>
    rw [insertDescBy]
    by_cases hc : k y ≤ k x
    · rw [if_pos hc]; simp
    · rw [if_neg hc]; simp [ih]

theorem sorted_insertDescBy {α : Type} (k : α → Rat) (x : α) :
    ∀ {l : List α}, l.Pairwise (fun a b => k b ≤ k a) →
      (insertDescBy k x l).Pairwise (fun a b => k b ≤ k a) := by
  intro l
  induction l with
  | nil => intro _; simp [insertDescBy]
  | cons y ys ih =>
    intro hp
    rw [List.pairwise_cons] at hp
    obtain ⟨hy, hys⟩ := hp
    rw [insertDescBy]
    by_cases hc : k y ≤ k x
    · rw [if_pos hc]
      rw [List.pairwise_cons]
      constructor
      · intro b hb
        rcases List.mem_cons.mp hb with rfl | hb2
        · exact hc
        · exact le_trans (hy b hb2) hc
      · exact List.Pairwise.cons hy hys
    · rw [if_neg hc]
      rw [List.pairwise_cons]
      constructor
      · intro b hb
        rcases (mem_insertDescBy k x).mp hb with rfl | hb2
        · exact le_of_not_le hc
        · exact hy b hb2
      · exact ih hys

theorem mem_sortDescBy {α : Type} (k : α → Rat) :
    ∀ {l : List α} {a : α}, a ∈ sortDescBy k l ↔ a ∈ l := by
  intro l
  induction l with
  | nil => intro a; simp [sortDescBy]
  | cons y ys ih =>
    intro a
    rw [sortDescBy, mem_insertDescBy]
    simp [ih, List.mem_cons]

theorem length_sortDescBy {α : Type} (k : α → Rat) :
    ∀ (l : List α), (sortDescBy k l).length = l.length := by
  intro l
  induction l with
  | nil => simp [sortDescBy]
  | cons y ys ih =>
    rw [sortDescBy, length_insertDescBy]
    simp [ih]

theorem sorted_sortDescBy {α : Type} (k : α → Rat) :
    ∀ (l : List α), (sortDescBy k l).Pairwise (fun a b => k b ≤ k a) := by
  intro l
  induction l with
  | nil => simp [sortDescBy]
  | cons y ys ih =>
    rw [sortDescBy]
    exact sorted_insertDescBy k y ih

/-! ## Lemmas about deduplication and pagination -/

theorem dup_any_iff (acc : List Game) (gd : Game) :
    (acc.any (fun existing =>
        existing.title == gd.title && existing.time == gd.time &&
        existing.scraped_date_range == gd.scraped_date_range)) = true ↔
      gameKey gd ∈ acc.map gameKey := by
  rw [List.any_eq_true, List.mem_map]
  constructor
  · rintro ⟨ex, hmem, hcond⟩
    simp only [Bool.and_eq_true, beq_iff_eq] at hcond
    exact ⟨ex, hmem, by rw [gameKey, gameKey, hcond.1.1, hcond.1.2, hcond.2]⟩
  · rintro ⟨ex, hmem, hkey⟩
    refine ⟨ex, hmem, ?_⟩
    rw [gameKey, gameKey, Prod.mk.injEq, Prod.mk.injEq] at hkey
    simp only [Bool.and_eq_true, beq_iff_eq]
    exact ⟨⟨hkey.1, hkey.2.1⟩, hkey.2.2⟩

theorem dedupStep_nodup (dr : String) (st : List Game × Nat) (frag : GameSoup)
    (h : (st.1.map gameKey).Nodup) : ((dedupStep dr st frag).1.map gameKey).Nodup := by
  rw [dedupStep]
  cases parse_game frag with
  | none => exact h
  | some gd0 =>
    simp only
    split
    · exact h
    · rename_i hdup
      rw [List.map_append]
      rw [List.nodup_append]
      refine ⟨h, by simp, ?_⟩
      intro k hk
      simp only [List.map_cons, List.map_nil, List.mem_singleton]
      intro hkey
      rw [hkey] at hk
      exact hdup ((dup_any_iff st.1 _).mpr hk)

theorem processFragments_nodup (dr : String) (frags : List GameSoup) :
    ∀ (st : List Game × Nat), (st.1.map gameKey).Nodup →
      ((frags.foldl (dedupStep dr) st).1.map gameKey).Nodup := by
  induction frags with
  | nil => intro st h; exact h
  | cons f fs ih =>
    intro st h
    rw [List.foldl_cons]
    exact ih (dedupStep dr st f) (dedupStep_nodup dr st f h)

theorem scrapeLoop_nodup (fetch : Nat → FetchOutcome) (dr : String) :
    ∀ (fuel page : Nat) (acc : List Game), (acc.map gameKey).Nodup →
      ((scrapeLoop fetch dr fuel page acc).games.map gameKey).Nodup := by
  intro fuel
  induction fuel with
  | zero => intro page acc h; exact h
  | succ m ih =>
    intro page acc h
    rw [scrapeLoop]
    cases fetch page with
    | err => exact h
    | ok frags =>
      by_cases he : frags.isEmpty
      · simp only [he, if_true]
        exact h
      · simp only [he, Bool.false_eq_true, if_false]
        have hpf : ((processFragments dr frags acc).1.map gameKey).Nodup :=
          processFragments_nodup dr frags (acc, 0) h
        by_cases hz : (processFragments dr frags acc).2 = 0
        · simp only [hz, if_true]
          exact hpf
        · simp only [hz, if_false]
          by_cases hcap : page + 1 > 20
          · simp only [hcap, if_true]
            exact hpf
          · simp only [hcap, if_false]
            exact ih (page + 1) (processFragments dr frags acc).1 hpf

theorem foldl_preserves_games {β : Type} (P : List Game → Prop)
    (f : List Game → β → List Game) (hf : ∀ acc b, P acc → P (f acc b)) :
    ∀ (l : List β) (acc : List Game), P acc → P (l.foldl f acc) := by
  intro l
  induction l with
  | nil => intro acc h; exact h
  | cons b bs ih =>
    intro acc h
    rw [List.foldl_cons]
    exact ih (f acc b) (hf acc b h)

theorem scrapeLoop_pages (fetch : Nat → FetchOutcome) (dr : String) :
    ∀ (fuel page : Nat) (acc : List Game), 1 ≤ fuel → page + fuel = 21 →
      ∃ n, 1 ≤ n ∧ n ≤ fuel ∧
        (scrapeLoop fetch dr fuel page acc).pagesFetched = List.range' page n ∧
        (scrapeLoop fetch dr fuel page acc).halt ≠ Halt.fuelOut := by
  intro fuel
  induction fuel with
  | zero => intro page acc h1 _; omega
  | succ m ih =>
    intro page acc _ hsum
    rw [scrapeLoop]
    cases fetch page with
    | err =>
      exact ⟨1, Nat.le_refl 1, by omega, by simp [List.range'], by simp⟩
    | ok frags =>
      by_cases he : frags.isEmpty
      · simp only [he, if_true]
        exact ⟨1, Nat.le_refl 1, by omega, by simp [List.range'], by simp⟩
      · simp only [he, Bool.false_eq_true, if_false]
        by_cases hz : (processFragments dr frags acc).2 = 0
        · simp only [hz, if_true]
          exact ⟨1, Nat.le_refl 1, by omega, by simp [List.range'], by simp⟩
        · simp only [hz, if_false]
          by_cases hcap : page + 1 > 20
          · simp only [hcap, if_true]
            exact ⟨1, Nat.le_refl 1, by omega, by simp [List.range'], by simp⟩
          · simp only [hcap, if_false]
            have hm : 1 ≤ m := by omega
            have hsum2 : (page + 1) + m = 21 := by omega
            obtain ⟨n, hn1, hn2, hpages, hhalt⟩ :=
              ih (page + 1) (processFragments dr frags acc).1 hm hsum2
            refine ⟨n + 1, by omega, by omega, ?_, ?_⟩
            · show page :: (scrapeLoop fetch dr m (page + 1)
                  (processFragments dr frags acc).1).pagesFetched = List.range' page (n + 1)
              rw [hpages, List.range'_succ]
            · show (scrapeLoop fetch dr m (page + 1)
                  (processFragments dr frags acc).1).halt ≠ Halt.fuelOut
              exact hhalt

/-! ## Claim theorems -/

/-- Claim C6: the cached snapshot is expired exactly when its age strictly
exceeds 30 minutes; at an age of exactly 30 minutes it is fresh, and one
second past 30 minutes it is expired.  Timestamps are in seconds. -/
theorem c6_cache_expiry_boundary :
    ∀ (t now : Int),
      (is_cache_expired (some t) now = true ↔ now - t > 30 * 60) ∧
      is_cache_expired (some t) (t + 30 * 60) = false ∧
      is_cache_expired (some t) (t + 30 * 60 + 1) = true := by
  intro t now
  refine ⟨?_, ?_, ?_⟩
  · rw [is_cache_expired]
    rw [decide_eq_true_eq]
    rw [CACHE_DURATION_MINUTES]
  · rw [is_cache_expired, decide_eq_false_iff_not, CACHE_DURATION_MINUTES]
    omega
  · rw [is_cache_expired, decide_eq_true_eq, CACHE_DURATION_MINUTES]
    omega

/-- Claim C10: the cache serves the stored snapshot only when the stored
games list is nonempty and not expired; with an empty stored list, or an
expired timestamp, the scrape pipeline result is returned and installed
with the current timestamp, so an empty snapshot is never served from
cache. -/
theorem c10_empty_cache_always_rescrapes :
    ∀ (st : CacheState) (now : Int) (fresh_data : List Game),
      (st.cached_games_data = [] →
        get_cached_or_fresh_data st now fresh_data = (fresh_data, ⟨fresh_data, some now⟩)) ∧
      (is_cache_expired st.cache_timestamp now = true →
        get_cached_or_fresh_data st now fresh_data = (fresh_data, ⟨fresh_data, some now⟩)) ∧
      (st.cached_games_data ≠ [] → is_cache_expired st.cache_timestamp now = false →
        get_cached_or_fresh_data st now fresh_data = (st.cached_games_data, st)) := by
  intro st now fresh_data
  refine ⟨?_, ?_, ?_⟩
  · intro hempty
    rw [get_cached_or_fresh_data, if_neg]
    intro hc
    exact hc.1 hempty
  · intro hexp
    rw [get_cached_or_fresh_data, if_neg]
    intro hc
    rw [hexp] at hc
    cases hc.2
  · intro hne hfresh
    rw [get_cached_or_fresh_data, if_pos ⟨hne, hfresh⟩]

/-- Witness for C10 at a concrete state: an empty cached list with a fresh
timestamp still triggers a rescrape and installs the new data. -/
theorem c10_witness :
    get_cached_or_fresh_data ⟨[], some 0⟩ 0 [game1] = ([game1], ⟨[game1], some 0⟩) :=
  (c10_empty_cache_always_rescrapes ⟨[], some 0⟩ 0 [game1]).1 rfl

/-- Claim C4: for any fetch oracle, the pagination loop of one sport and
date-range pair requests consecutive pages starting at page 1, requests at
most 20 pages, and halts through one of its real exit conditions: a fetch
error, a page with zero fragments, a page with zero new games, or the
20-page cap; the fuel of the embedding never runs out. -/
theorem c4_pagination_sequential_and_capped :
    ∀ (fetch : Nat → FetchOutcome) (dr : String) (acc : List Game),
      ∃ n, 1 ≤ n ∧ n ≤ 20 ∧
        (scrapePair fetch dr acc).pagesFetched = List.range' 1 n ∧
        ((scrapePair fetch dr acc).halt = Halt.fetchError ∨
         (scrapePair fetch dr acc).halt = Halt.emptyPage ∨
         (scrapePair fetch dr acc).halt = Halt.noNewGames ∨
         (scrapePair fetch dr acc).halt = Halt.pageCap) := by
  intro fetch dr acc
  obtain ⟨n, h1, h2, hpages, hhalt⟩ := scrapeLoop_pages fetch dr 20 1 acc (by omega) (by omega)
  refine ⟨n, h1, h2, hpages, ?_⟩
  cases hh : (scrapePair fetch dr acc).halt
  · exact Or.inl rfl
  · exact Or.inr (Or.inl rfl)
  · exact Or.inr (Or.inr (Or.inl rfl))
  · exact Or.inr (Or.inr (Or.inr rfl))
  · exact absurd hh hhalt

/-- Claim C7 counterexample: the dedicated MLB team list has three tokens
beyond the generic MLB roster, not two. -/
theorem c7_counterexample : ¬ (mlbExtraTokens.length = 2) := by decide

/-- Claim C7 amended: the dedicated MLB list of filter_mlb_games carries
exactly the three extra tokens Indians, SEA and NY beyond the generic MLB
roster of filter_games_by_sport, and consequently every game returned by
the generic mlb filter is also returned by filter_mlb_games. -/
theorem c7_amended_mlb_roster_discrepancy :
    mlbExtraTokens = ["Indians", "SEA", "NY"] ∧
    ∀ (games : List Game) (g : Game),
      g ∈ filter_games_by_sport games "mlb" → g ∈ filter_mlb_games games := by
  constructor
  · decide
  · intro games g hg
    rw [filter_games_by_sport] at hg
    have hml : team_lists "mlb" = some team_lists_mlb := rfl
    rw [hml] at hg
    rw [List.mem_filter] at hg
    rw [filter_mlb_games, List.mem_filter]
    refine ⟨hg.1, ?_⟩
    have hmatch := hg.2
    rw [titleMatchesRoster, List.any_eq_true] at hmatch ⊢
    obtain ⟨team, hteam, hcont⟩ := hmatch
    have hsub : ∀ t ∈ team_lists_mlb, t ∈ mlb_teams := by decide
    exact ⟨team, hsub team hteam, hcont⟩

/-- Witness for C7 at a concrete game list: a Yankees at Red Sox game kept
by the generic mlb filter is kept by the dedicated MLB filter too. -/
theorem c7_witness : game1 ∈ filter_mlb_games [game1] :=
  (c7_amended_mlb_roster_discrepancy).2 [game1] game1 (by decide)

/-- Claim C5: within one scrape run no two accumulated games share the
identity key of title, time and scraped date range, whatever the fetch
oracle returns; and a fragment parsed twice in a row contributes exactly
one game, because the second copy is discarded by the key comparison. -/
theorem c5_dedup_unique_within_run :
    (∀ (fetch : Nat → String → Nat → FetchOutcome),
      ((scrape_betting_splits fetch).map gameKey).Nodup) ∧
    (∀ (dr : String) (f : GameSoup),
      processFragments dr [f, f] [] = processFragments dr [f] []) := by
  constructor
  · intro fetch
    rw [scrape_betting_splits]
    apply foldl_preserves_games (fun gs => (gs.map gameKey).Nodup)
    · intro acc cfg hacc
      apply foldl_preserves_games (fun gs => (gs.map gameKey).Nodup)
      · intro acc2 dr hacc2
        exact scrapeLoop_nodup (fetch cfg.2.1 dr) dr 20 1 acc2 hacc2
      · exact hacc
    · simp
  · intro dr f
    rw [processFragments, processFragments]
    rw [List.foldl_cons, List.foldl_cons, List.foldl_cons, List.foldl_nil, List.foldl_nil]
    cases hp : parse_game f with
    | none =>
      simp only [dedupStep, hp]
    | some gd0 =>
      have hstep1 : dedupStep dr ([], 0) f =
          ([{ gd0 with scraped_date_range := dr }], 1) := by
        simp only [dedupStep, hp]
        simp
      rw [hstep1]
      simp only [dedupStep, hp]
      simp

/-- Claim C3 counterexample: a bet row whose percentage-looking texts are
150 and 160 percent is accepted by parse_bet unchanged, and its handle
percentage parses to 150, outside the claimed interval of 0 to 100. -/
theorem c3_counterexample :
    parse_bet bs150 =
      some { team := "X", odds := "+100", handle_pct := "150%", bets_pct := "160%" } ∧
    ¬ (parse_percentage "150%" ≤ 100) :=
  ⟨by decide, by decide⟩

/-- Claim C3 amended: for every bet the parser produces, both percentage
strings parse to a nonnegative value (the upper bound of 100 does not hold,
as the token test accepts any digit run), and when fewer than two
percentage tokens are found both fields default to the string 0 percent
rather than the bet being rejected. -/
theorem c3_amended_percentages_nonneg :
    ∀ (bs : BetSoup) (b : Bet), parse_bet bs = some b →
      0 ≤ parse_percentage b.handle_pct ∧ 0 ≤ parse_percentage b.bets_pct ∧
      (((bs.div_texts.map pyStrip).filter isPctToken).length < 2 →
        b.handle_pct = "0%" ∧ b.bets_pct = "0%") := by
  intro bs b hb
  rw [parse_bet] at hb
  cases hte : bs.team_elem with
  | none => rw [hte] at hb; cases hb
  | some t =>
    rw [hte] at hb
    cases hoe : bs.odds_elem with
    | none => rw [hoe] at hb; cases hb
    | some o =>
      rw [hoe] at hb
      cases hfl : (bs.div_texts.map pyStrip).filter isPctToken with
      | nil =>
        rw [hfl] at hb
        injection hb with hb2
        rw [← hb2]
        exact ⟨by show 0 ≤ parse_percentage "0%"; decide,
               by show 0 ≤ parse_percentage "0%"; decide,
               fun _ => ⟨rfl, rfl⟩⟩
      | cons p1 tl =>
        cases tl with
        | nil =>
          rw [hfl] at hb
          injection hb with hb2
          rw [← hb2]
          exact ⟨by show 0 ≤ parse_percentage "0%"; decide,
                 by show 0 ≤ parse_percentage "0%"; decide,
                 fun _ => ⟨rfl, rfl⟩⟩
        | cons p2 rest =>
          rw [hfl] at hb
          injection hb with hb2
          rw [← hb2]
          have hp1 : isPctToken p1 = true := by
            apply List.of_mem_filter (l := bs.div_texts.map pyStrip)
            rw [hfl]
            exact List.mem_cons_self _ _
          have hp2 : isPctToken p2 = true := by
            apply List.of_mem_filter (l := bs.div_texts.map pyStrip)
            rw [hfl]
            exact List.mem_cons_of_mem _ (List.mem_cons_self _ _)
          refine ⟨isPctToken_nonneg hp1, isPctToken_nonneg hp2, ?_⟩
          intro hlen
          exfalso
          simp only [List.length_cons] at hlen
          omega

/-- Witness for the amended C3 at a concrete bet row: the parsed bet of the
65 and 20 percent row has nonnegative parsed percentages. -/
theorem c3_witness :
    0 ≤ parse_percentage bet1.handle_pct ∧ 0 ≤ parse_percentage bet1.bets_pct ∧
    (((bs1.div_texts.map pyStrip).filter isPctToken).length < 2 →
      bet1.handle_pct = "0%" ∧ bet1.bets_pct = "0%") :=
  c3_amended_percentages_nonneg bs1 bet1 (by decide)

/-! ## Lemmas about the analytics engine -/

theorem diffKey_setHandleVsBetsDiff (b : AnnotatedBet) :
    diffKey (setHandleVsBetsDiff b) =
      parse_percentage b.handle_pct - parse_percentage b.bets_pct := by
  rw [diffKey, setHandleVsBetsDiff]
  rw [Option.getD_some]
  exact ratSub_eq _ _

theorem diffKey_eq_of_mem_map_setDiff {l : List AnnotatedBet} {a : AnnotatedBet}
    (h : a ∈ l.map setHandleVsBetsDiff) :
    diffKey a = parse_percentage a.handle_pct - parse_percentage a.bets_pct := by
  rw [List.mem_map] at h
  obtain ⟨b0, -, rfl⟩ := h
  rw [diffKey_setHandleVsBetsDiff]
  rfl

/-- Claim C1: every bet returned by sharpest_longshot_bets has parsed odds
at least 200 and a parsed handle-minus-bets difference of at least 30, the
result is sorted descending by that difference, and at most 7 bets are
returned. -/
theorem c1_sharpest_longshots_spec :
    ∀ (games : List Game),
      (sharpest_longshot_bets games 7).length ≤ 7 ∧
      (∀ b ∈ sharpest_longshot_bets games 7,
        200 ≤ parse_odds b.odds ∧
        30 ≤ parse_percentage b.handle_pct - parse_percentage b.bets_pct) ∧
      (sharpest_longshot_bets games 7).Pairwise
        (fun x y => parse_percentage y.handle_pct - parse_percentage y.bets_pct ≤
                    parse_percentage x.handle_pct - parse_percentage x.bets_pct) := by
  intro games
  simp only [sharpest_longshot_bets]
  refine ⟨List.length_take_le 7 _, ?_, ?_⟩
  · intro b hb
    have hb2 := List.mem_of_mem_take hb
    rw [mem_sortDescBy] at hb2
    have hkey := diffKey_eq_of_mem_map_setDiff hb2
    rw [List.mem_map] at hb2
    obtain ⟨b0, hb0, rfl⟩ := hb2
    rw [List.mem_filter] at hb0
    have hcond := hb0.2
    rw [Bool.and_eq_true, decide_eq_true_eq, decide_eq_true_eq] at hcond
    obtain ⟨hodds, hpct⟩ := hcond
    rw [ratAdd_eq] at hpct
    constructor
    · exact hodds
    · rw [← hkey, diffKey_setHandleVsBetsDiff]
      linarith
  · have hs := sorted_sortDescBy diffKey
      ((extract_all_bets games).filter (fun b =>
          decide (parse_odds b.odds ≥ 200) &&
          decide (parse_percentage b.handle_pct ≥ ratAdd (parse_percentage b.bets_pct) 30))
        |>.map setHandleVsBetsDiff)
    have hp := List.Pairwise.sublist (List.take_sublist 7 _) hs
    apply List.Pairwise.imp_of_mem ?_ hp
    intro a b ha hb hab
    have hka := diffKey_eq_of_mem_map_setDiff (by rw [← mem_sortDescBy]; exact List.mem_of_mem_take ha)
    have hkb := diffKey_eq_of_mem_map_setDiff (by rw [← mem_sortDescBy]; exact List.mem_of_mem_take hb)
    rw [hka, hkb] at hab
    exact hab

/-- Witness for C1 at a concrete game: the annotated Yankees longshot is in
the result and satisfies the odds and difference bounds. -/
theorem c1_witness :
    200 ≤ parse_odds (setHandleVsBetsDiff ab1).odds ∧
    30 ≤ parse_percentage (setHandleVsBetsDiff ab1).handle_pct -
        parse_percentage (setHandleVsBetsDiff ab1).bets_pct :=
  (c1_sharpest_longshots_spec [game1]).2.1 (setHandleVsBetsDiff ab1) (by decide)

/-- Claim C8: the sport-scoped big-bettor alerts restrict the games through
filter_games_by_sport, exclude bets of the Total market, rank the remainder
descending by the parsed handle-minus-bets difference, and return at most 7
bets; the global big_bettor_alerts, in contrast, ranks descending by the
parsed handle percentage alone. -/
theorem c8_big_bettor_by_sport_spec :
    ∀ (games : List Game) (sport : String),
      (big_bettor_alerts_by_sport games sport 7).length ≤ 7 ∧
      (∀ b ∈ big_bettor_alerts_by_sport games sport 7,
        b.market_type ≠ "Total" ∧
        ∃ b0 ∈ extract_all_bets (filter_games_by_sport games sport),
          b = setHandleVsBetsDiff b0) ∧
      (big_bettor_alerts_by_sport games sport 7).Pairwise
        (fun x y => parse_percentage y.handle_pct - parse_percentage y.bets_pct ≤
                    parse_percentage x.handle_pct - parse_percentage x.bets_pct) ∧
      (∀ games2 : List Game, (big_bettor_alerts games2 7).Pairwise
        (fun x y => parse_percentage y.handle_pct ≤ parse_percentage x.handle_pct)) := by
  intro games sport
  have hglobal : ∀ games2 : List Game, (big_bettor_alerts games2 7).Pairwise
      (fun x y => parse_percentage y.handle_pct ≤ parse_percentage x.handle_pct) := by
    intro games2
    simp only [big_bettor_alerts]
    have hs := sorted_sortDescBy handleKey
      ((extract_all_bets games2).filter (fun b => b.market_type != "Total"))
    exact List.Pairwise.sublist (List.take_sublist 7 _) hs
  simp only [big_bettor_alerts_by_sport]
  by_cases hemp : (filter_games_by_sport games sport).isEmpty
  · simp only [hemp, if_true]
    exact ⟨by simp, by simp, by simp, hglobal⟩
  · simp only [hemp, Bool.false_eq_true, if_false]
    refine ⟨List.length_take_le 7 _, ?_, ?_, hglobal⟩
    · intro b hb
      have hb2 := List.mem_of_mem_take hb
      rw [mem_sortDescBy] at hb2
      rw [List.mem_map] at hb2
      obtain ⟨b0, hb0, rfl⟩ := hb2
      rw [List.mem_filter] at hb0
      have hmt : b0.market_type ≠ "Total" := by
        have := hb0.2
        rw [bne_iff_ne] at this
        exact this
      refine ⟨?_, b0, hb0.1, rfl⟩
      show (setHandleVsBetsDiff b0).market_type ≠ "Total"
      exact hmt
    · have hs := sorted_sortDescBy diffKey
        (((extract_all_bets (filter_games_by_sport games sport)).filter
            (fun b => b.market_type != "Total")).map setHandleVsBetsDiff)
      have hp := List.Pairwise.sublist (List.take_sublist 7 _) hs
      apply List.Pairwise.imp_of_mem ?_ hp
      intro a b ha hb hab
      have hka := diffKey_eq_of_mem_map_setDiff
        (by rw [← mem_sortDescBy]; exact List.mem_of_mem_take ha)
      have hkb := diffKey_eq_of_mem_map_setDiff
        (by rw [← mem_sortDescBy]; exact List.mem_of_mem_take hb)
      rw [hka, hkb] at hab
      exact hab

/-- Witness for C8 at a concrete game: the annotated Yankees moneyline bet
appears in the mlb-scoped alerts, is not a Total bet and is a copy of a
flattened bet of the filtered games. -/
theorem c8_witness :
    (setHandleVsBetsDiff ab1).market_type ≠ "Total" ∧
    ∃ b0 ∈ extract_all_bets (filter_games_by_sport [game1] "mlb"),
      setHandleVsBetsDiff ab1 = setHandleVsBetsDiff b0 :=
  (c8_big_bettor_by_sport_spec [game1] "mlb").2.1 (setHandleVsBetsDiff ab1) (by decide)

/-- Claim C9: analytics never write onto the stored snapshot.  Every
flattened bet produced by extract_all_bets is a fresh copy of a stored bet
with the derived score fields absent, and every bet returned by
sharpest_longshot_bets is such a copy with the difference written onto the
copy; the stored Bet records carry no derived fields at all, so repeated
queries read the same stored data. -/
theorem c9_analytics_do_not_mutate_snapshot :
    ∀ (games : List Game),
      (∀ ab ∈ extract_all_bets games,
        ab.handle_vs_bets_diff = none ∧ ab.square_score = none ∧
        ∃ g ∈ games, ∃ p ∈ g.markets, ∃ b ∈ p.2,
          ab = mkAnnotated g p.1 b ∧ ab.team = b.team ∧ ab.odds = b.odds ∧
          ab.handle_pct = b.handle_pct ∧ ab.bets_pct = b.bets_pct) ∧
      (∀ ab ∈ sharpest_longshot_bets games 7,
        ∃ ab0 ∈ extract_all_bets games, ab = setHandleVsBetsDiff ab0) := by
  intro games
  constructor
  · intro ab hab
    rw [extract_all_bets, List.mem_flatMap] at hab
    obtain ⟨g, hg, hab2⟩ := hab
    rw [List.mem_flatMap] at hab2
    obtain ⟨p, hp, hab3⟩ := hab2
    rw [List.mem_map] at hab3
    obtain ⟨b, hbmem, rfl⟩ := hab3
    exact ⟨rfl, rfl, g, hg, p, hp, b, hbmem, rfl, rfl, rfl, rfl, rfl⟩
  · intro ab hab
    simp only [sharpest_longshot_bets] at hab
    have hb2 := List.mem_of_mem_take hab
    rw [mem_sortDescBy] at hb2
    rw [List.mem_map] at hb2
    obtain ⟨b0, hb0, rfl⟩ := hb2
    rw [List.mem_filter] at hb0
    exact ⟨b0, hb0.1, rfl⟩

/-- Witness for C9 at a concrete game: the flattened copy of the stored
Yankees bet has no derived fields and matches the stored record
field-by-field. -/
theorem c9_witness :
    ab1.handle_vs_bets_diff = none ∧ ab1.square_score = none ∧
    ∃ g ∈ [game1], ∃ p ∈ g.markets, ∃ b ∈ p.2,
      ab1 = mkAnnotated g p.1 b ∧ ab1.team = b.team ∧ ab1.odds = b.odds ∧
      ab1.handle_pct = b.handle_pct ∧ ab1.bets_pct = b.bets_pct :=
  (c9_analytics_do_not_mutate_snapshot [game1]).1 ab1 (by decide)

/-! ## Lemmas for the title-splitting claim -/

theorem splitTitle_parts_ne_empty {s a h : String}
    (hsplit : splitTitle (pyStrip s) = some (a, h)) : a ≠ "" ∧ h ≠ "" := by
  rw [splitTitle] at hsplit
  by_cases hat : pyContains " @ " (pyStrip s) = true
  · rw [if_pos hat] at hsplit
    cases hsp : pySplit " @ " (pyStrip s) with
    | nil => rw [hsp] at hsplit; cases hsplit
    | cons a0 tl =>
      cases tl with
      | nil => rw [hsp] at hsplit; cases hsplit
      | cons h0 tl2 =>
        cases tl2 with
        | nil =>
          rw [hsp] at hsplit
          injection hsplit with heq
          injection heq with ha hh
          have happend := pySplit_two (show (" @ " : String).toList ≠ [] by decide) hsp
          have hstrip : (pyStrip s).toList = stripChars s.toList := rfl
          rw [hstrip] at happend
          constructor
          · rw [← ha]
            have hne := strip_part_left
              (show (" @ " : String).toList = ' ' :: ['@', ' '] from rfl) (by decide) happend
            show String.mk (stripChars a0.toList) ≠ String.mk []
            exact String_mk_ne_of_ne hne
          · rw [← hh]
            have hne := strip_part_right
              (show ((" @ " : String).toList).getLast? = some ' ' from rfl) (by decide) happend
            show String.mk (stripChars h0.toList) ≠ String.mk []
            exact String_mk_ne_of_ne hne
        | cons x xs => rw [hsp] at hsplit; cases hsplit
  · rw [Bool.not_eq_true] at hat
    rw [hat] at hsplit
    simp only [Bool.false_eq_true, if_false] at hsplit
    by_cases hvs : pyContains " vs " (pyStrip s) = true
    · rw [if_pos hvs] at hsplit
      cases hsp : pySplit " vs " (pyStrip s) with
      | nil => rw [hsp] at hsplit; cases hsplit
      | cons a0 tl =>
        cases tl with
        | nil => rw [hsp] at hsplit; cases hsplit
        | cons h0 tl2 =>
          cases tl2 with
          | nil =>
            rw [hsp] at hsplit
            injection hsplit with heq
            injection heq with ha hh
            have happend := pySplit_two (show (" vs " : String).toList ≠ [] by decide) hsp
            have hstrip : (pyStrip s).toList = stripChars s.toList := rfl
            rw [hstrip] at happend
            constructor
            · rw [← ha]
              have hne := strip_part_left
                (show (" vs " : String).toList = ' ' :: ['v', 's', ' '] from rfl) (by decide) happend
              show String.mk (stripChars a0.toList) ≠ String.mk []
              exact String_mk_ne_of_ne hne
            · rw [← hh]
              have hne := strip_part_right
                (show ((" vs " : String).toList).getLast? = some ' ' from rfl) (by decide) happend
              show String.mk (stripChars h0.toList) ≠ String.mk []
              exact String_mk_ne_of_ne hne
          | cons x xs => rw [hsp] at hsplit; cases hsplit
    · rw [Bool.not_eq_true] at hvs
      rw [hvs] at hsplit
      simp only [Bool.false_eq_true, if_false] at hsplit
      cases hsplit

/-- Claim C2: parse_game splits the stripped title on the first matching
delimiter, checking the at-delimiter before the vs-delimiter, and produces
a game only when that split yields exactly two parts, which are then
necessarily nonempty after trimming; a title with no delimiter, or whose
chosen split does not have exactly two parts, rejects the fragment. -/
theorem c2_title_split_spec :
    ∀ (gs : GameSoup) (te : TitleElem), gs.title_elem = some te →
      (∀ g, parse_game gs = some g →
        splitTitle (pyStrip te.h5_text) = some (g.away_team, g.home_team) ∧
        g.away_team ≠ "" ∧ g.home_team ≠ "") ∧
      (splitTitle (pyStrip te.h5_text) = none → parse_game gs = none) ∧
      (pyContains " @ " (pyStrip te.h5_text) = true →
        splitTitle (pyStrip te.h5_text) =
          (match pySplit " @ " (pyStrip te.h5_text) with
           | [a, h] => some (pyStrip a, pyStrip h)
           | _ => none)) ∧
      (pyContains " @ " (pyStrip te.h5_text) = false →
       pyContains " vs " (pyStrip te.h5_text) = true →
        splitTitle (pyStrip te.h5_text) =
          (match pySplit " vs " (pyStrip te.h5_text) with
           | [a, h] => some (pyStrip a, pyStrip h)
           | _ => none)) ∧
      (pyContains " @ " (pyStrip te.h5_text) = false →
       pyContains " vs " (pyStrip te.h5_text) = false →
        parse_game gs = none) := by
  intro gs te hte
  have hnone : splitTitle (pyStrip te.h5_text) = none → parse_game gs = none := by
    intro hsp
    simp only [parse_game, hte, hsp]
  refine ⟨?_, hnone, ?_, ?_, ?_⟩
  · intro g hg
    simp only [parse_game, hte] at hg
    cases hsp : splitTitle (pyStrip te.h5_text) with
    | none => rw [hsp] at hg; cases hg
    | some ah =>
      obtain ⟨away, home⟩ := ah
      rw [hsp] at hg
      cases hmw : gs.market_wrap with
      | none => rw [hmw] at hg; cases hg
      | some containers =>
        rw [hmw] at hg
        simp only at hg
        injection hg with hg2
        have hparts := splitTitle_parts_ne_empty hsp
        refine ⟨?_, ?_, ?_⟩
        · rw [← hg2]
        · rw [← hg2]
          exact hparts.1
        · rw [← hg2]
          exact hparts.2
  · intro hat
    rw [splitTitle, if_pos hat]
  · intro hat hvs
    rw [splitTitle, if_neg (by rw [hat]; simp), if_pos hvs]
  · intro hat hvs
    apply hnone
    rw [splitTitle, if_neg (by rw [hat]; simp), if_neg (by rw [hvs]; simp)]

/-- Witness for C2 at a concrete fragment: the Yankees at Red Sox title is
accepted and yields the two nonempty team names. -/
theorem c2_witness :
    splitTitle (pyStrip ts1.h5_text) = some (game1parsed.away_team, game1parsed.home_team) ∧
    game1parsed.away_team ≠ "" ∧ game1parsed.home_team ≠ "" :=
  (c2_title_split_spec gs1 ts1 rfl).1 game1parsed (by decide)
